import Mathlib

/-!
Shallow embedding of the 8086 MOV disassembler in `src/main.rs`.

The program loads a binary file, wraps it in a byte cursor, prints the line
`bits 16`, and then loops: each iteration prints an empty line (`println!("")`),
reads an opcode byte (end of input here breaks the loop normally), classifies
it by bit patterns, reads the bytes that encoding needs (a failed read aborts
the whole run via the `?` operator), and prints the decoded instruction text.

The byte stream is modelled as a `List Nat` of the not-yet-consumed bytes
(each entry a byte value; reads reduce it modulo 256, the `u8` range).
Output is modelled as the accumulated `String` carried by the result values.
Rust's `print!`/`println!` calls are modelled by recording, in program order,
exactly the text each call writes, so text printed before a failing read is
part of the aborted run's output.  Arithmetic overflow of `i16::abs`
(a panic when debug assertions are on) is modelled by `Option`: `none` marks
the panic, and the `panicked` results propagate it.
-/

set_option linter.unusedVariables false

namespace Decode8086

/-- Addressing-mode field of a ModRM byte (source: `enum ModField`). -/
inductive ModField
  | MemoryNoDisplacement
  | MemoryDisplacement8bit
  | MemoryDisplacement16bit
  | RegisterNoDisplacement
  deriving DecidableEq

/-- The source obtains a `ModField` by `transmute`-ing the 2-bit value
`next_byte >> 6`; every caller passes a value below 4.  Bit pattern 3 (and the
unreachable larger values) fall into the final arm. -/
def ModField.ofBits : Nat → ModField
  | 0 => .MemoryNoDisplacement
  | 1 => .MemoryDisplacement8bit
  | 2 => .MemoryDisplacement16bit
  | _ => .RegisterNoDisplacement

/-- Register enumeration (source: `enum Registers`, discriminants
`0b0000`..`0b1111`, ordered al..bh then ax..di). -/
inductive Registers
  | al
  | cl
  | dl
  | bl
  | ah
  | ch
  | dh
  | bh
  | ax
  | cx
  | dx
  | bx
  | sp
  | bp
  | si
  | di
  deriving DecidableEq

/-- `transmute::<u8, Registers>(key)`.  All call sites build the key from
masked bits, so it is below 16; larger inputs are unreachable in the source
(undefined behaviour there) and are mapped arbitrarily to `al` here. -/
def Registers.ofKey : Nat → Registers
  | 0 => .al
  | 1 => .cl
  | 2 => .dl
  | 3 => .bl
  | 4 => .ah
  | 5 => .ch
  | 6 => .dh
  | 7 => .bh
  | 8 => .ax
  | 9 => .cx
  | 10 => .dx
  | 11 => .bx
  | 12 => .sp
  | 13 => .bp
  | 14 => .si
  | 15 => .di
  | _ => .al

/-- `format!("{:?}", reg)`: the derived `Debug` impl prints the variant name. -/
def Registers.fmt : Registers → String
  | .al => "al"
  | .cl => "cl"
  | .dl => "dl"
  | .bl => "bl"
  | .ah => "ah"
  | .ch => "ch"
  | .dh => "dh"
  | .bh => "bh"
  | .ax => "ax"
  | .cx => "cx"
  | .dx => "dx"
  | .bx => "bx"
  | .sp => "sp"
  | .bp => "bp"
  | .si => "si"
  | .di => "di"

/-- Rust `i16::abs`.  It overflows at `i16::MIN = -32768`: with debug
assertions the program panics there and produces no value, modelled by
`none`. -/
def i16Abs (v : Int) : Option Int :=
  if v = -32768 then none else some |v|

/-- `get_displacement(mode, rm, value)` from the source.  The source marks
`rm` values above 7 and the register mode `unreachable!()`; those give `none`,
as does the `i16::abs` overflow in the displacement-mode arm (the source
computes `value_str` before matching on `rm`, so the overflow fires for every
`rm`). -/
def get_displacement (mode : ModField) (rm : Nat) (value : Int) : Option String :=
  match mode with
  | .MemoryNoDisplacement =>
    match rm with
    | 0 => some "[bx + si]"
    | 1 => some "[bx + di]"
    | 2 => some "[bp + si]"
    | 3 => some "[bp + di]"
    | 4 => some "[si]"
    | 5 => some "[di]"
    | 6 => some (if value = 0 then "[bp]" else "[" ++ toString value ++ "]")
    | 7 => some "[bx]"
    | _ => none
  | .MemoryDisplacement16bit | .MemoryDisplacement8bit =>
    (if 0 ≤ value then some ("+ " ++ toString value)
     else (i16Abs value).map (fun a => "- " ++ toString a)).bind fun value_str =>
    match rm with
    | 0 => some ("[bx + si " ++ value_str ++ "]")
    | 1 => some ("[bx + di " ++ value_str ++ "]")
    | 2 => some ("[bp + si " ++ value_str ++ "]")
    | 3 => some ("[bp + di " ++ value_str ++ "]")
    | 4 => some ("[si " ++ value_str ++ "]")
    | 5 => some ("[di " ++ value_str ++ "]")
    | 6 => some (if value = 0 then "[bp]" else "[" ++ toString value ++ "]")
    | 7 => some ("[bx " ++ value_str ++ "]")
    | _ => none
  | .RegisterNoDisplacement => none

/-- `cursor.read_u8()`: consume one byte (values reduced to the `u8` range). -/
def readU8 : List Nat → Option (Nat × List Nat)
  | [] => none
  | b :: rest => some (b % 256, rest)

/-- Two's-complement value of a byte, i.e. `read_i8()? as i16`. -/
def toI8 (b : Nat) : Int :=
  if b % 256 < 128 then ((b % 256 : Nat) : Int) else ((b % 256 : Nat) : Int) - 256

/-- `cursor.read_i8()` (the source immediately widens the result to `i16`). -/
def readI8 (bytes : List Nat) : Option (Int × List Nat) :=
  match readU8 bytes with
  | none => none
  | some (b, rest) => some (toI8 b, rest)

/-- Two's-complement value of a 16-bit word. -/
def toI16 (n : Nat) : Int :=
  if n % 65536 < 32768 then ((n % 65536 : Nat) : Int) else ((n % 65536 : Nat) : Int) - 65536

/-- `cursor.read_i16::<LittleEndian>()`: consume two bytes, low byte first. -/
def readI16LE : List Nat → Option (Int × List Nat)
  | lo :: hi :: rest => some (toI16 (lo % 256 + 256 * (hi % 256)), rest)
  | _ => none

/-- Outcome of one iteration of the decode loop, not counting the
unconditional `println!("")` at the top of the iteration.
`printed` is the text the iteration wrote with `print!`/`println!`:
for `cont` the completed instruction text, for `fail` (a `?` read error) and
`panicked` the fragment written before the abort. -/
inductive StepOut
  | eof
  | cont (printed : String) (rest : List Nat)
  | fail (printed : String)
  | panicked (printed : String)
  deriving DecidableEq

/-- The `value` read of the register/memory form (source lines 126-133): an
8-bit read in 8-bit-displacement mode, a 16-bit read in 16-bit-displacement
mode and in the direct-address case (mode 00, rm 110), and no read (value 0)
otherwise. -/
def regMemValueRead (next_byte : Nat) (r0 : List Nat) : Option (Int × List Nat) :=
  match ModField.ofBits (next_byte >>> 6) with
  | .MemoryDisplacement8bit => readI8 r0
  | .MemoryDisplacement16bit => readI16LE r0
  | .MemoryNoDisplacement =>
    if next_byte &&& 0b111 = 0b110 then readI16LE r0 else some (0, r0)
  | .RegisterNoDisplacement => some (0, r0)

/-- A 1- or 2-byte value read selected by the width bit, as the source's
immediate-form reads do (lines 186-190 and 219-223). -/
def readData (w_field : Nat) (bytes : List Nat) : Option (Int × List Nat) :=
  if w_field = 0 then readI8 bytes else readI16LE bytes

/-- MOV register/memory to/from register (`100010dw`), source lines 110-175:
read the ModRM byte, then the displacement the mode requires (16-bit also for
mode 00 with rm 110), resolve both operands and print
`mov <first>, <second>` where the `reg`-field register is printed first
exactly when `d_field = 1`.  `print!("mov ")` happens after the ModRM read and
before the displacement read. -/
def decodeRegMem (d_field w_field : Nat) (bytes : List Nat) : StepOut :=
  match readU8 bytes with
  | none => .fail ""
  | some (next_byte, r0) =>
    match regMemValueRead next_byte r0 with
    | none => .fail "mov "
    | some (value, r1) =>
      match ModField.ofBits (next_byte >>> 6) with
      | .RegisterNoDisplacement =>
        -- other_reg = transmute(w_field << 3 | rm); reg = transmute(w_field << 3 | (next_byte >> 3 & 0b111))
        -- d_field is masked to one bit by the caller; other values are unreachable!() in the source.
        .cont ("mov " ++
          (if d_field = 0
           then (Registers.ofKey ((w_field <<< 3) ||| (next_byte &&& 0b111))).fmt ++ ", " ++
                (Registers.ofKey ((w_field <<< 3) ||| ((next_byte >>> 3) &&& 0b111))).fmt
           else (Registers.ofKey ((w_field <<< 3) ||| ((next_byte >>> 3) &&& 0b111))).fmt ++ ", " ++
                (Registers.ofKey ((w_field <<< 3) ||| (next_byte &&& 0b111))).fmt)) r1
      | mode =>
        match get_displacement mode (next_byte &&& 0b111) value with
        | none => .panicked "mov "
        | some displacement =>
          .cont ("mov " ++
            (if d_field = 0
             then displacement ++ ", " ++
                  (Registers.ofKey ((w_field <<< 3) ||| ((next_byte >>> 3) &&& 0b111))).fmt
             else (Registers.ofKey ((w_field <<< 3) ||| ((next_byte >>> 3) &&& 0b111))).fmt ++
                  ", " ++ displacement)) r1

/-- MOV immediate to register/memory (`1100011w`), source lines 176-242:
`print!("mov ")` happens before the ModRM read.  One value is then read whose
size is chosen by `w_field` (not by the addressing mode); in the register mode
the register is `transmute(rm)` (no width bit) and that value is the
immediate, in no-displacement-memory mode the same single value is used both
as the displacement and as the immediate, and only in the two displacement
modes is a further immediate read.  The immediate is always printed behind
`byte `/`word `. -/
def decodeImmRegMem (w_field : Nat) (bytes : List Nat) : StepOut :=
  match readU8 bytes with
  | none => .fail "mov "
  | some (next_byte, r0) =>
    match readData w_field r0 with
    | none => .fail "mov "
    | some (displacement_value, r1) =>
      match ModField.ofBits (next_byte >>> 6) with
      | .RegisterNoDisplacement =>
        .cont ("mov " ++ (Registers.ofKey (next_byte &&& 0b111)).fmt ++ ", " ++
          (if w_field = 0 then "byte " else "word ") ++ toString displacement_value) r1
      | .MemoryNoDisplacement =>
        match get_displacement .MemoryNoDisplacement (next_byte &&& 0b111) displacement_value with
        | none => .panicked "mov "
        | some displacement =>
          .cont ("mov " ++ displacement ++ ", " ++
            (if w_field = 0 then "byte " else "word ") ++ toString displacement_value) r1
      | mode =>
        match get_displacement mode (next_byte &&& 0b111) displacement_value with
        | none => .panicked "mov "
        | some displacement =>
          match readData w_field r1 with
          | none => .fail "mov "
          | some (data, r2) =>
            .cont ("mov " ++ displacement ++ ", " ++
              (if w_field = 0 then "byte " else "word ") ++ toString data) r2

/-- MOV immediate to register (`1011wreg`), source lines 243-254: the register
comes from the opcode's own bits, `print!("mov {:?}, ", reg)` happens before
the immediate read, then the 1- or 2-byte immediate is printed. -/
def decodeImmReg (opcode : Nat) (bytes : List Nat) : StepOut :=
  match readData ((opcode >>> 3) &&& 0b1) bytes with
  | none =>
    .fail ("mov " ++
      (Registers.ofKey ((((opcode >>> 3) &&& 0b1) <<< 3) ||| (opcode &&& 0b111))).fmt ++ ", ")
  | some (value, r0) =>
    .cont ("mov " ++
      (Registers.ofKey ((((opcode >>> 3) &&& 0b1) <<< 3) ||| (opcode &&& 0b111))).fmt ++ ", " ++
      toString value) r0

/-- One iteration of the `'main` loop after its leading `println!("")`:
read the opcode byte (end of input breaks the loop: `eof`), then dispatch on
the source's if/else-if chain.  The four unimplemented forms print a
placeholder line with a trailing newline (`println!`); an opcode matching no
pattern prints nothing and the loop continues. -/
def step (bytes : List Nat) : StepOut :=
  match readU8 bytes with
  | none => .eof
  | some (opcode, r0) =>
    if opcode >>> 2 = 0b100010 then
      decodeRegMem ((opcode >>> 1) &&& 1) (opcode &&& 1) r0
    else if opcode >>> 1 = 0b1100011 then
      decodeImmRegMem (opcode &&& 0b1) r0
    else if opcode >>> 4 = 0b1011 then
      decodeImmReg opcode r0
    else if opcode >>> 1 = 0b1010000 then
      .cont "mov ;Memory to accumulator\n" r0
    else if opcode >>> 1 = 0b1010001 then
      .cont "mov ;Accumulator to memory\n" r0
    else if opcode = 0b10001110 then
      .cont "mov ;Register/memory to segment register\n" r0
    else if opcode = 0b10001100 then
      .cont "mov ;Segment register to register/memory\n" r0
    else
      .cont "" r0

/-- Result of a whole run: normal exit (`Ok(())`), abort through the `?`
operator on a failed read, or an arithmetic-overflow panic.  Each carries the
full text written to standard output. -/
inductive RunResult
  | ok (out : String)
  | ioError (out : String)
  | panicked (out : String)
  deriving DecidableEq

/-- The text a run wrote, whichever way it ended. -/
def RunResult.output : RunResult → String
  | .ok s => s
  | .ioError s => s
  | .panicked s => s

/-- Prepend already-printed text to a later result. -/
def RunResult.consOut (p : String) : RunResult → RunResult
  | .ok s => .ok (p ++ s)
  | .ioError s => .ioError (p ++ s)
  | .panicked s => .panicked (p ++ s)

/-- The decode loop, structured by fuel.  Each iteration prints `"\n"`
(`println!("")`) before anything else; `eof` ends the loop normally.  The
loop is always run with fuel `bytes.length + 1`, which is sufficient because
every `cont` strictly shortens the stream, so the fuel-exhaustion arm is
unreachable. -/
def decodeLoopFuel : Nat → List Nat → RunResult
  | 0, _ => .ok ""
  | fuel + 1, bytes =>
    match step bytes with
    | .eof => .ok "\n"
    | .fail s => .ioError ("\n" ++ s)
    | .panicked s => .panicked ("\n" ++ s)
    | .cont s rest => RunResult.consOut ("\n" ++ s) (decodeLoopFuel fuel rest)

/-- The `'main` loop of the source. -/
def decodeLoop (bytes : List Nat) : RunResult :=
  decodeLoopFuel (bytes.length + 1) bytes

/-- The whole program on an already-loaded byte stream: print `bits 16`
with a newline, then run the decode loop. -/
def decodeProgram (bytes : List Nat) : RunResult :=
  RunResult.consOut "bits 16\n" (decodeLoop bytes)

/-! ### Cursor-consumption lemmas -/

theorem readU8_some_length {bytes : List Nat} {b : Nat} {r : List Nat}
    (h : readU8 bytes = some (b, r)) : r.length + 1 = bytes.length := by
  cases bytes with
  | nil => simp [readU8] at h
  | cons x xs =>
    simp only [readU8, Option.some.injEq, Prod.mk.injEq] at h
    rcases h with ⟨-, hr⟩
    subst hr
    simp

theorem readI8_some_length {bytes : List Nat} {v : Int} {r : List Nat}
    (h : readI8 bytes = some (v, r)) : r.length + 1 = bytes.length := by
  cases bytes with
  | nil => simp [readI8, readU8] at h
  | cons x xs =>
    simp only [readI8, readU8, Option.some.injEq, Prod.mk.injEq] at h
    rcases h with ⟨-, hr⟩
    subst hr
    simp

theorem readI16LE_some_length {bytes : List Nat} {v : Int} {r : List Nat}
    (h : readI16LE bytes = some (v, r)) : r.length + 2 = bytes.length := by
  match bytes with
  | [] => simp [readI16LE] at h
  | [x] => simp [readI16LE] at h
  | x :: y :: xs =>
    simp only [readI16LE, Option.some.injEq, Prod.mk.injEq] at h
    rcases h with ⟨-, hr⟩
    subst hr
    simp

theorem regMemValueRead_some_length {nb : Nat} {r0 : List Nat} {v : Int} {r1 : List Nat}
    (h : regMemValueRead nb r0 = some (v, r1)) : r1.length ≤ r0.length := by
  unfold regMemValueRead at h
  split at h
  · exact Nat.le_of_lt (by have := readI8_some_length h; omega)
  · exact Nat.le_of_lt (by have := readI16LE_some_length h; omega)
  · split at h
    · exact Nat.le_of_lt (by have := readI16LE_some_length h; omega)
    · simp only [Option.some.injEq, Prod.mk.injEq] at h
      rcases h with ⟨-, hr⟩
      exact le_of_eq (congrArg List.length hr.symm)
  · simp only [Option.some.injEq, Prod.mk.injEq] at h
    rcases h with ⟨-, hr⟩
    exact le_of_eq (congrArg List.length hr.symm)

theorem readData_some_length {w : Nat} {bytes : List Nat} {v : Int} {r : List Nat}
    (h : readData w bytes = some (v, r)) : r.length < bytes.length := by
  unfold readData at h
  split at h
  · have := readI8_some_length h; omega
  · have := readI16LE_some_length h; omega

theorem decodeRegMem_cont_length {d w : Nat} {bytes : List Nat} {s : String} {r : List Nat}
    (h : decodeRegMem d w bytes = .cont s r) : r.length < bytes.length := by
  unfold decodeRegMem at h
  split at h
  · exact absurd h (by simp)
  · rename_i next_byte r0 hu
    split at h
    · exact absurd h (by simp)
    · rename_i value r1 hv
      have h0 := readU8_some_length hu
      have h1 := regMemValueRead_some_length hv
      split at h
      · cases h; omega
      all_goals
        split at h
        · exact absurd h (by simp)
        · cases h; omega

theorem decodeImmRegMem_cont_length {w : Nat} {bytes : List Nat} {s : String} {r : List Nat}
    (h : decodeImmRegMem w bytes = .cont s r) : r.length < bytes.length := by
  unfold decodeImmRegMem at h
  split at h
  · exact absurd h (by simp)
  · rename_i next_byte r0 hu
    split at h
    · exact absurd h (by simp)
    · rename_i value r1 hv
      have h0 := readU8_some_length hu
      have h1 := readData_some_length hv
      split at h
      · cases h; omega
      · split at h
        · exact absurd h (by simp)
        · cases h; omega
      · split at h
        · exact absurd h (by simp)
        · split at h
          · exact absurd h (by simp)
          · rename_i data r2 hd
            have h2 := readData_some_length hd
            cases h; omega

theorem decodeImmReg_cont_length {opcode : Nat} {bytes : List Nat} {s : String} {r : List Nat}
    (h : decodeImmReg opcode bytes = .cont s r) : r.length < bytes.length := by
  unfold decodeImmReg at h
  split at h
  · exact absurd h (by simp)
  · rename_i value r0 hv
    have := readData_some_length hv
    cases h; omega

theorem step_cont_length {bytes : List Nat} {s : String} {rest : List Nat}
    (h : step bytes = .cont s rest) : rest.length < bytes.length := by
  unfold step at h
  split at h
  · exact absurd h (by simp)
  · rename_i opcode r0 hu
    have h0 := readU8_some_length hu
    split at h
    · have := decodeRegMem_cont_length h; omega
    · split at h
      · have := decodeImmRegMem_cont_length h; omega
      · split at h
        · have := decodeImmReg_cont_length h; omega
        · split at h
          · cases h; omega
          · split at h
            · cases h; omega
            · split at h
              · cases h; omega
              · split at h
                · cases h; omega
                · cases h; omega

/-! ### Loop unfolding lemmas -/

theorem decodeLoopFuel_irrel : ∀ (f g : Nat) (bytes : List Nat),
    bytes.length < f → bytes.length < g →
    decodeLoopFuel f bytes = decodeLoopFuel g bytes := by
  intro f
  induction f with
  | zero => exact fun g bytes hf _ => absurd hf (Nat.not_lt_zero _)
  | succ f ih =>
    intro g bytes hf hg
    cases g with
    | zero => exact absurd hg (Nat.not_lt_zero _)
    | succ g =>
      unfold decodeLoopFuel
      cases hs : step bytes with
      | eof => rfl
      | fail s => rfl
      | panicked s => rfl
      | cont s rest =>
        have hr := step_cont_length hs
        show RunResult.consOut ("\n" ++ s) (decodeLoopFuel f rest) =
          RunResult.consOut ("\n" ++ s) (decodeLoopFuel g rest)
        rw [ih g rest (by omega) (by omega)]

theorem consOut_output (p : String) (r : RunResult) :
    (RunResult.consOut p r).output = p ++ r.output := by
  cases r <;> rfl

/-- One unfolding of the decode loop: print the iteration's leading newline,
then act on the step outcome. -/
theorem decodeLoop_eq (bytes : List Nat) :
    decodeLoop bytes =
      match step bytes with
      | .eof => .ok "\n"
      | .fail s => .ioError ("\n" ++ s)
      | .panicked s => .panicked ("\n" ++ s)
      | .cont s rest => RunResult.consOut ("\n" ++ s) (decodeLoop rest) := by
  unfold decodeLoop
  conv_lhs => rw [decodeLoopFuel]
  cases hs : step bytes with
  | eof => rfl
  | fail s => rfl
  | panicked s => rfl
  | cont s rest =>
    show RunResult.consOut ("\n" ++ s) (decodeLoopFuel bytes.length rest) =
      RunResult.consOut ("\n" ++ s) (decodeLoopFuel (rest.length + 1) rest)
    rw [decodeLoopFuel_irrel bytes.length (rest.length + 1) rest (step_cont_length hs)
      (Nat.lt_succ_self _)]

theorem decodeLoop_cont {bytes : List Nat} {s : String} {rest : List Nat}
    (h : step bytes = .cont s rest) :
    decodeLoop bytes = RunResult.consOut ("\n" ++ s) (decodeLoop rest) := by
  rw [decodeLoop_eq, h]

theorem decodeLoop_fail {bytes : List Nat} {s : String}
    (h : step bytes = .fail s) : decodeLoop bytes = .ioError ("\n" ++ s) := by
  rw [decodeLoop_eq, h]

theorem decodeLoop_output_startsNl (bytes : List Nat) :
    ∃ t, (decodeLoop bytes).output = "\n" ++ t := by
  rw [decodeLoop_eq]
  cases hs : step bytes with
  | eof => exact ⟨"", rfl⟩
  | fail s => exact ⟨s, rfl⟩
  | panicked s => exact ⟨s, rfl⟩
  | cont s rest =>
    refine ⟨s ++ (decodeLoop rest).output, ?_⟩
    show (RunResult.consOut ("\n" ++ s) (decodeLoop rest)).output = _
    rw [consOut_output, String.append_assoc]

theorem decodeProgram_output (bytes : List Nat) :
    (decodeProgram bytes).output = "bits 16\n" ++ (decodeLoop bytes).output := by
  unfold decodeProgram
  rw [consOut_output]

/-! ### Shape lemmas about the printed text -/

theorem decodeRegMem_cont_shape {d w nb : Nat} {r0 : List Nat} {s : String} {r : List Nat}
    (hd : d < 2) (hnb : nb < 256)
    (h : decodeRegMem d w (nb :: r0) = .cont s r) :
    ∃ other, s = "mov " ++
      (if d = 1 then (Registers.ofKey ((w <<< 3) ||| ((nb >>> 3) &&& 0b111))).fmt else other) ++
      ", " ++
      (if d = 1 then other else (Registers.ofKey ((w <<< 3) ||| ((nb >>> 3) &&& 0b111))).fmt) := by
  unfold decodeRegMem at h
  simp only [readU8, Nat.mod_eq_of_lt hnb] at h
  split at h
  · exact absurd h (by simp)
  · rename_i value r1 hv
    interval_cases d
    · simp only [if_pos rfl, OfNat.zero_ne_ofNat, if_false] at h ⊢
      split at h
      · cases h
        exact ⟨_, rfl⟩
      all_goals
        split at h
        · exact absurd h (by simp)
        · cases h
          exact ⟨_, rfl⟩
    · simp only [one_ne_zero, if_false, if_pos rfl] at h ⊢
      split at h
      · cases h
        exact ⟨_, rfl⟩
      all_goals
        split at h
        · exact absurd h (by simp)
        · cases h
          exact ⟨_, rfl⟩

theorem decodeImmRegMem_cont_shape {w : Nat} {bytes : List Nat} {s : String} {r : List Nat}
    (h : decodeImmRegMem w bytes = .cont s r) :
    ∃ (dst : String) (v : Int),
      s = "mov " ++ dst ++ ", " ++ (if w = 0 then "byte " else "word ") ++ toString v := by
  unfold decodeImmRegMem at h
  split at h
  · exact absurd h (by simp)
  · split at h
    · exact absurd h (by simp)
    · split at h
      · cases h
        exact ⟨_, _, rfl⟩
      · split at h
        · exact absurd h (by simp)
        · cases h
          exact ⟨_, _, rfl⟩
      · split at h
        · exact absurd h (by simp)
        · split at h
          · exact absurd h (by simp)
          · cases h
            exact ⟨_, _, rfl⟩

theorem decodeRegMem_fail_shape {d w : Nat} {bytes : List Nat} {s : String}
    (h : decodeRegMem d w bytes = .fail s) : s = "" ∨ s = "mov " := by
  unfold decodeRegMem at h
  split at h
  · cases h; exact Or.inl rfl
  · split at h
    · cases h; exact Or.inr rfl
    · split at h
      · exact absurd h (by simp)
      all_goals
        split at h
        · exact absurd h (by simp)
        · exact absurd h (by simp)

theorem decodeImmRegMem_fail_shape {w : Nat} {bytes : List Nat} {s : String}
    (h : decodeImmRegMem w bytes = .fail s) : s = "mov " := by
  unfold decodeImmRegMem at h
  split at h
  · cases h; rfl
  · split at h
    · cases h; rfl
    · split at h
      · exact absurd h (by simp)
      · split at h
        · exact absurd h (by simp)
        · exact absurd h (by simp)
      · split at h
        · exact absurd h (by simp)
        · split at h
          · cases h; rfl
          · exact absurd h (by simp)

theorem decodeImmReg_fail_shape {opcode : Nat} {bytes : List Nat} {s : String}
    (h : decodeImmReg opcode bytes = .fail s) :
    ∃ reg : Registers, s = "mov " ++ reg.fmt ++ ", " := by
  unfold decodeImmReg at h
  split at h
  · cases h; exact ⟨_, rfl⟩
  · exact absurd h (by simp)

theorem step_fail_shape {bytes : List Nat} {s : String} (h : step bytes = .fail s) :
    s = "" ∨ s = "mov " ∨ ∃ reg : Registers, s = "mov " ++ reg.fmt ++ ", " := by
  unfold step at h
  split at h
  · exact absurd h (by simp)
  · split at h
    · exact (decodeRegMem_fail_shape h).imp id Or.inl
    · split at h
      · exact Or.inr (Or.inl (decodeImmRegMem_fail_shape h))
      · split at h
        · exact Or.inr (Or.inr (decodeImmReg_fail_shape h))
        · split at h
          · exact absurd h (by simp)
          · split at h
            · exact absurd h (by simp)
            · split at h
              · exact absurd h (by simp)
              · split at h
                · exact absurd h (by simp)
                · exact absurd h (by simp)

theorem step_unrecognized {b : Nat} (rest : List Nat) (hb : b < 256)
    (h1 : b >>> 2 ≠ 0b100010) (h2 : b >>> 1 ≠ 0b1100011) (h3 : b >>> 4 ≠ 0b1011)
    (h4 : b >>> 1 ≠ 0b1010000) (h5 : b >>> 1 ≠ 0b1010001)
    (h6 : b ≠ 0b10001110) (h7 : b ≠ 0b10001100) :
    step (b :: rest) = .cont "" rest := by
  unfold step
  simp only [readU8, Nat.mod_eq_of_lt hb]
  rw [if_neg h1, if_neg h2, if_neg h3, if_neg h4, if_neg h5, if_neg h6, if_neg h7]

theorem step_placeholder_memAcc {b : Nat} (rest : List Nat) (hb : b < 256)
    (h : b >>> 1 = 0b1010000) :
    step (b :: rest) = .cont "mov ;Memory to accumulator\n" rest := by
  have hb2 : b / 2 = 0b1010000 := by
    simpa [Nat.shiftRight_eq_div_pow] using h
  unfold step
  simp only [readU8, Nat.mod_eq_of_lt hb]
  rw [if_neg (show ¬b >>> 2 = 0b100010 by simp [Nat.shiftRight_eq_div_pow]; omega),
    if_neg (show ¬b >>> 1 = 0b1100011 by simp [Nat.shiftRight_eq_div_pow]; omega),
    if_neg (show ¬b >>> 4 = 0b1011 by simp [Nat.shiftRight_eq_div_pow]; omega),
    if_pos h]

theorem step_placeholder_accMem {b : Nat} (rest : List Nat) (hb : b < 256)
    (h : b >>> 1 = 0b1010001) :
    step (b :: rest) = .cont "mov ;Accumulator to memory\n" rest := by
  have hb2 : b / 2 = 0b1010001 := by
    simpa [Nat.shiftRight_eq_div_pow] using h
  unfold step
  simp only [readU8, Nat.mod_eq_of_lt hb]
  rw [if_neg (show ¬b >>> 2 = 0b100010 by simp [Nat.shiftRight_eq_div_pow]; omega),
    if_neg (show ¬b >>> 1 = 0b1100011 by simp [Nat.shiftRight_eq_div_pow]; omega),
    if_neg (show ¬b >>> 4 = 0b1011 by simp [Nat.shiftRight_eq_div_pow]; omega),
    if_neg (show ¬b >>> 1 = 0b1010000 by simp [Nat.shiftRight_eq_div_pow]; omega),
    if_pos h]

theorem step_placeholder_regMemSeg (rest : List Nat) :
    step (0b10001110 :: rest) = .cont "mov ;Register/memory to segment register\n" rest := by
  unfold step
  norm_num [readU8, Nat.shiftRight_eq_div_pow]

theorem step_placeholder_segRegMem (rest : List Nat) :
    step (0b10001100 :: rest) = .cont "mov ;Segment register to register/memory\n" rest := by
  unfold step
  norm_num [readU8, Nat.shiftRight_eq_div_pow]

/-! ### Newline-freeness of implemented instruction text

The three implemented forms print their instruction on a single line: every
piece of the printed text (mnemonic, register names, operand expressions,
width keywords, rendered numbers) is free of newline characters.  This backs
the output-structure statement that only the per-iteration leading newlines
and the placeholder lines break lines in the output. -/

/-- The string contains no newline character. -/
abbrev noNl (s : String) : Prop := ∀ c ∈ s.data, c ≠ '\n'

theorem noNl_append {a b : String} (ha : noNl a) (hb : noNl b) : noNl (a ++ b) := by
  intro c hc
  rw [String.data_append] at hc
  rcases List.mem_append.mp hc with h | h
  · exact ha c h
  · exact hb c h

theorem digitChar_ne_nl (n : Nat) : Nat.digitChar n ≠ '\n' := by
  by_cases h16 : n < 16
  · interval_cases n <;> decide
  · have hstar : Nat.digitChar n = '*' := by
      unfold Nat.digitChar
      repeat rw [if_neg (by omega)]
    rw [hstar]
    decide

theorem toDigitsCore_ne_nl (b : Nat) :
    ∀ (f n : Nat) (ds : List Char), (∀ c ∈ ds, c ≠ '\n') →
      ∀ c ∈ Nat.toDigitsCore b f n ds, c ≠ '\n' := by
  intro f
  induction f with
  | zero =>
    intro n ds hds c hc
    exact hds c hc
  | succ f ih =>
    intro n ds hds c hc
    have hext : ∀ x ∈ Nat.digitChar (n % b) :: ds, x ≠ '\n' := by
      intro x hx
      rcases List.mem_cons.mp hx with hx | hx
      · rw [hx]
        exact digitChar_ne_nl _
      · exact hds x hx
    have hc' : c ∈ if n / b = 0 then Nat.digitChar (n % b) :: ds
        else Nat.toDigitsCore b f (n / b) (Nat.digitChar (n % b) :: ds) := hc
    split at hc'
    · exact hext c hc'
    · exact ih (n / b) (Nat.digitChar (n % b) :: ds) hext c hc'

theorem natRepr_noNl (n : Nat) : noNl (Nat.repr n) := by
  intro c hc
  exact toDigitsCore_ne_nl 10 (n + 1) n [] (by intro x hx; cases hx) c hc

theorem intToString_noNl (v : Int) : noNl (toString v) := by
  cases v with
  | ofNat m => exact natRepr_noNl m
  | negSucc m => exact noNl_append (by decide) (natRepr_noNl (m + 1))

theorem registers_fmt_noNl (r : Registers) : noNl r.fmt := by
  cases r <;> decide

theorem get_displacement_noNl {mode : ModField} {rm : Nat} {v : Int} {s : String}
    (h : get_displacement mode rm v = some s) : noNl s := by
  unfold get_displacement at h
  split at h
  · split at h <;> try cases h
    · decide
    · decide
    · decide
    · decide
    · decide
    · decide
    · split
      · decide
      · exact noNl_append (noNl_append (by decide) (intToString_noNl v)) (by decide)
    · decide
  all_goals try cases h
  all_goals
    rw [Option.bind_eq_some] at h
    obtain ⟨value_str, hvs, harm⟩ := h
    have hnvs : noNl value_str := by
      split at hvs
      · cases hvs
        exact noNl_append (by decide) (intToString_noNl v)
      · rw [Option.map_eq_some'] at hvs
        obtain ⟨a, -, ha⟩ := hvs
        rw [← ha]
        exact noNl_append (by decide) (intToString_noNl a)
    split at harm <;> try cases harm
    · exact noNl_append (noNl_append (by decide) hnvs) (by decide)
    · exact noNl_append (noNl_append (by decide) hnvs) (by decide)
    · exact noNl_append (noNl_append (by decide) hnvs) (by decide)
    · exact noNl_append (noNl_append (by decide) hnvs) (by decide)
    · exact noNl_append (noNl_append (by decide) hnvs) (by decide)
    · exact noNl_append (noNl_append (by decide) hnvs) (by decide)
    · split
      · decide
      · exact noNl_append (noNl_append (by decide) (intToString_noNl v)) (by decide)
    · exact noNl_append (noNl_append (by decide) hnvs) (by decide)

theorem decodeRegMem_cont_noNl {d w : Nat} {bytes : List Nat} {s : String} {r : List Nat}
    (h : decodeRegMem d w bytes = .cont s r) :
    (∃ u, s = "mov " ++ u) ∧ noNl s := by
  unfold decodeRegMem at h
  split at h
  · exact absurd h (by simp)
  · split at h
    · exact absurd h (by simp)
    · split at h
      · cases h
        refine ⟨⟨_, rfl⟩, noNl_append (by decide) ?_⟩
        split
        · exact noNl_append (noNl_append (registers_fmt_noNl _) (by decide))
            (registers_fmt_noNl _)
        · exact noNl_append (noNl_append (registers_fmt_noNl _) (by decide))
            (registers_fmt_noNl _)
      all_goals
        split at h
        · exact absurd h (by simp)
        · rename_i displacement hdisp
          cases h
          refine ⟨⟨_, rfl⟩, noNl_append (by decide) ?_⟩
          split
          · exact noNl_append (noNl_append (get_displacement_noNl hdisp) (by decide))
              (registers_fmt_noNl _)
          · exact noNl_append (noNl_append (registers_fmt_noNl _) (by decide))
              (get_displacement_noNl hdisp)

theorem decodeImmRegMem_cont_noNl {w : Nat} {bytes : List Nat} {s : String} {r : List Nat}
    (h : decodeImmRegMem w bytes = .cont s r) :
    (∃ u, s = "mov " ++ u) ∧ noNl s := by
  unfold decodeImmRegMem at h
  split at h
  · exact absurd h (by simp)
  · split at h
    · exact absurd h (by simp)
    · split at h
      · cases h
        refine ⟨⟨_, by rw [String.append_assoc, String.append_assoc, String.append_assoc]⟩, ?_⟩
        refine noNl_append (noNl_append (noNl_append (noNl_append (by decide)
          (registers_fmt_noNl _)) (by decide)) ?_) (intToString_noNl _)
        split
        · decide
        · decide
      · split at h
        · exact absurd h (by simp)
        · rename_i displacement hdisp
          cases h
          refine ⟨⟨_, by rw [String.append_assoc, String.append_assoc, String.append_assoc]⟩, ?_⟩
          refine noNl_append (noNl_append (noNl_append (noNl_append (by decide)
            (get_displacement_noNl hdisp)) (by decide)) ?_) (intToString_noNl _)
          split
          · decide
          · decide
      · split at h
        · exact absurd h (by simp)
        · rename_i displacement hdisp
          split at h
          · exact absurd h (by simp)
          · cases h
            refine ⟨⟨_, by rw [String.append_assoc, String.append_assoc, String.append_assoc]⟩, ?_⟩
            refine noNl_append (noNl_append (noNl_append (noNl_append (by decide)
              (get_displacement_noNl hdisp)) (by decide)) ?_) (intToString_noNl _)
            split
            · decide
            · decide

theorem decodeImmReg_cont_noNl {opcode : Nat} {bytes : List Nat} {s : String} {r : List Nat}
    (h : decodeImmReg opcode bytes = .cont s r) :
    (∃ u, s = "mov " ++ u) ∧ noNl s := by
  unfold decodeImmReg at h
  split at h
  · exact absurd h (by simp)
  · cases h
    refine ⟨⟨_, by rw [String.append_assoc, String.append_assoc]⟩, ?_⟩
    exact noNl_append (noNl_append (noNl_append (by decide) (registers_fmt_noNl _))
      (by decide)) (intToString_noNl _)

theorem step_implemented_noNl {b : Nat} {r : List Nat} {s : String} {rest : List Nat}
    (hb : b < 256)
    (hpat : b >>> 2 = 0b100010 ∨ b >>> 1 = 0b1100011 ∨ b >>> 4 = 0b1011)
    (h : step (b :: r) = .cont s rest) :
    (∃ u, s = "mov " ++ u) ∧ noNl s := by
  unfold step at h
  simp only [readU8, Nat.mod_eq_of_lt hb] at h
  rcases hpat with hp | hp | hp
  · rw [if_pos hp] at h
    exact decodeRegMem_cont_noNl h
  · have hp' : b / 2 = 0b1100011 := by simpa [Nat.shiftRight_eq_div_pow] using hp
    rw [if_neg (show ¬b >>> 2 = 0b100010 by simp [Nat.shiftRight_eq_div_pow]; omega),
      if_pos hp] at h
    exact decodeImmRegMem_cont_noNl h
  · have hp' : b / 16 = 0b1011 := by simpa [Nat.shiftRight_eq_div_pow] using hp
    rw [if_neg (show ¬b >>> 2 = 0b100010 by simp [Nat.shiftRight_eq_div_pow]; omega),
      if_neg (show ¬b >>> 1 = 0b1100011 by simp [Nat.shiftRight_eq_div_pow]; omega),
      if_pos hp] at h
    exact decodeImmReg_cont_noNl h

/-- Byte streams that decode, iteration by iteration, through the three fully
implemented MOV forms only, until the stream is exhausted exactly at an
opcode boundary. -/
inductive ImplementedOnly : List Nat → Prop
  | nil : ImplementedOnly []
  | cons {b : Nat} {r : List Nat} {s : String} {rest : List Nat} :
      b < 256 →
      (b >>> 2 = 0b100010 ∨ b >>> 1 = 0b1100011 ∨ b >>> 4 = 0b1011) →
      step (b :: r) = .cont s rest →
      ImplementedOnly rest →
      ImplementedOnly (b :: r)

theorem chain'_no_double_nl (t : List Char) :
    ∀ (l : List Char) (x : Char), x ≠ '\n' → (∀ c ∈ l, c ≠ '\n') →
      List.Chain' (fun a b => ¬(a = '\n' ∧ b = '\n')) ('\n' :: t) →
      List.Chain' (fun a b => ¬(a = '\n' ∧ b = '\n')) (x :: (l ++ '\n' :: t)) := by
  intro l
  induction l with
  | nil =>
    intro x hx hl hch
    rw [List.nil_append]
    exact List.chain'_cons.mpr ⟨fun hpair => hx hpair.1, hch⟩
  | cons c l ih =>
    intro x hx hl hch
    rw [List.cons_append]
    refine List.chain'_cons.mpr ⟨fun hpair => hl c (List.mem_cons_self c l) hpair.2, ?_⟩
    exact ih c (hl c (List.mem_cons_self c l)) (fun y hy => hl y (List.mem_cons_of_mem c hy)) hch

/-- A stream of only implemented instructions yields a loop output that is
the leading newline followed by text with no two adjacent newlines and no
newline at its start: no blank lines at all inside the loop output. -/
theorem implementedOnly_noBlank {bytes : List Nat} (h : ImplementedOnly bytes) :
    ∃ t, (decodeLoop bytes).output = "\n" ++ t ∧
      List.Chain' (fun a b => ¬(a = '\n' ∧ b = '\n')) ('\n' :: t.data) := by
  induction h with
  | nil =>
    refine ⟨"", ?_, List.chain'_singleton _⟩
    rw [String.append_empty]
    rfl
  | @cons b r s rest hb hpat hstep _ ih =>
    obtain ⟨t', ht', hch⟩ := ih
    obtain ⟨⟨u, hu⟩, hnl⟩ := step_implemented_noNl hb hpat hstep
    refine ⟨s ++ ("\n" ++ t'), ?_, ?_⟩
    · rw [decodeLoop_cont hstep, consOut_output, ht', String.append_assoc]
    · have hdata : (s ++ ("\n" ++ t')).data = s.data ++ '\n' :: t'.data := by
        rw [String.data_append, String.data_append]
        rfl
      rw [hdata, hu]
      have hsd : ("mov " ++ u).data = 'm' :: 'o' :: 'v' :: ' ' :: u.data := by
        rw [String.data_append]
        rfl
      rw [hsd]
      have hu_nl : ∀ c ∈ 'o' :: 'v' :: ' ' :: u.data, c ≠ '\n' := by
        intro c hc
        have : c ∈ ("mov " ++ u).data := by
          rw [hsd]
          exact List.mem_cons_of_mem 'm' hc
        rw [← hu] at this
        exact hnl c this
      rw [List.cons_append]
      exact List.chain'_cons.mpr ⟨by decide,
        chain'_no_double_nl t'.data ('o' :: 'v' :: ' ' :: u.data) 'm' (by decide) hu_nl hch⟩

/-! ### Totality of the addressing resolver away from the overflow value -/

theorem get_displacement_total {mode : ModField} {rm : Nat} (v : Int)
    (hmode : mode = .MemoryDisplacement8bit ∨ mode = .MemoryDisplacement16bit)
    (hrm : rm < 8) (hmin : v ≠ -32768) :
    ∃ s, get_displacement mode rm v = some s ∧
      (v < 0 → rm ≠ 6 → ∃ a, s = a ++ ("- " ++ toString (-v)) ++ "]") := by
  have habs : i16Abs v = some |v| := by
    unfold i16Abs
    rw [if_neg hmin]
  rcases hmode with hm | hm <;> subst hm <;> unfold get_displacement <;> by_cases hv : 0 ≤ v
  · rw [if_pos hv]
    simp only [Option.some_bind]
    interval_cases rm <;> exact ⟨_, rfl, fun hneg _ => absurd hneg (not_lt.mpr hv)⟩
  · rw [if_neg hv, habs, abs_of_neg (lt_of_not_le hv)]
    simp only [Option.map_some', Option.some_bind]
    interval_cases rm
    · exact ⟨_, rfl, fun _ _ => ⟨_, rfl⟩⟩
    · exact ⟨_, rfl, fun _ _ => ⟨_, rfl⟩⟩
    · exact ⟨_, rfl, fun _ _ => ⟨_, rfl⟩⟩
    · exact ⟨_, rfl, fun _ _ => ⟨_, rfl⟩⟩
    · exact ⟨_, rfl, fun _ _ => ⟨_, rfl⟩⟩
    · exact ⟨_, rfl, fun _ _ => ⟨_, rfl⟩⟩
    · exact ⟨_, rfl, fun _ h6 => absurd rfl h6⟩
    · exact ⟨_, rfl, fun _ _ => ⟨_, rfl⟩⟩
  · rw [if_pos hv]
    simp only [Option.some_bind]
    interval_cases rm <;> exact ⟨_, rfl, fun hneg _ => absurd hneg (not_lt.mpr hv)⟩
  · rw [if_neg hv, habs, abs_of_neg (lt_of_not_le hv)]
    simp only [Option.map_some', Option.some_bind]
    interval_cases rm
    · exact ⟨_, rfl, fun _ _ => ⟨_, rfl⟩⟩
    · exact ⟨_, rfl, fun _ _ => ⟨_, rfl⟩⟩
    · exact ⟨_, rfl, fun _ _ => ⟨_, rfl⟩⟩
    · exact ⟨_, rfl, fun _ _ => ⟨_, rfl⟩⟩
    · exact ⟨_, rfl, fun _ _ => ⟨_, rfl⟩⟩
    · exact ⟨_, rfl, fun _ _ => ⟨_, rfl⟩⟩
    · exact ⟨_, rfl, fun _ h6 => absurd rfl h6⟩
    · exact ⟨_, rfl, fun _ _ => ⟨_, rfl⟩⟩

/-! ### Claims -/

/-- C1: the claim says the immediate-to-register/memory form reads a
displacement sized by the addressing mode (16-bit in the rm=110 direct case)
and then a separate immediate exactly when the resolved mode is any true
memory mode.  The code instead sizes the first read by the width bit and
performs the second read only in the two displacement modes: on
`C7 06 E8 03 07 00` (mov word [1000], 7 in 8086 encoding) it prints the
address 1000 as the data, never reads the immediate bytes 07 00, and skips
them as unrecognised opcodes. -/
theorem C1_immediate_conflation_eval :
    decodeProgram [0xC7, 0x06, 0xE8, 0x03, 0x07, 0x00] =
      .ok "bits 16\n\nmov [1000], word 1000\n\n\n" := by
  decide

/-- C2: the claim says no-displacement mode with rm=110 renders "[value]" for
every 16-bit value including zero.  The code's rm=110 arm special-cases value
zero to "[bp]": on `8B 06 00 00` (mov ax, [0] in 8086 encoding) the program
prints `mov ax, [bp]`. -/
theorem C2_direct_address_zero_eval :
    get_displacement .MemoryNoDisplacement 6 0 = some "[bp]" ∧
    decodeProgram [0x8B, 0x06, 0x00, 0x00] = .ok "bits 16\n\nmov ax, [bp]\n" := by
  exact ⟨rfl, by decide⟩

/-- C3: the claim says the displacement modes render selector 110 as the bp
base with a "+ N"/"- N" suffix (except exactly at zero).  The code's rm=110
arm in the displacement modes instead prints the bare "[value]" with no bp:
on `8B 46 05` (mov ax, [bp + 5] in 8086 encoding) the program prints
`mov ax, [5]`. -/
theorem C3_bp_displacement_dropped_eval :
    get_displacement .MemoryDisplacement8bit 6 5 = some "[5]" ∧
    decodeProgram [0x8B, 0x46, 0x05] = .ok "bits 16\n\nmov ax, [5]\n" := by
  exact ⟨rfl, by decide⟩

/-- C4 counterexample: the claim says no fragment of the assembly line, not
even the mnemonic, is emitted for a truncated instruction.  On the single
byte `C6` the immediate-to-register/memory branch prints "mov " before its
ModRM read fails, so the aborted run's output ends with that fragment. -/
theorem C4_fragment_counterexample :
    decodeProgram [0xC6] = .ioError "bits 16\n\nmov " := by
  decide

/-- C4 (amended): end of input while reading a byte required by a classified
opcode aborts the run with a fatal error and nothing further is printed for
that instruction; however the text already printed before the failing read
survives, which is the iteration's leading newline possibly followed by
"mov " (immediate forms print the mnemonic before reading) or
"mov <reg>, " (the immediate-to-register form also prints its register). -/
theorem C4_truncated_abort (bytes : List Nat) (s : String) (h : step bytes = .fail s) :
    decodeLoop bytes = .ioError ("\n" ++ s) ∧
      (s = "" ∨ s = "mov " ∨ ∃ reg : Registers, s = "mov " ++ reg.fmt ++ ", ") :=
  ⟨decodeLoop_fail h, step_fail_shape h⟩

/-- C4 witness: the truncated stream `C6` aborts after printing "mov ". -/
theorem C4_truncated_abort_witness :
    decodeLoop [0xC6] = .ioError ("\n" ++ "mov ") ∧
      (("mov " : String) = "" ∨ ("mov " : String) = "mov " ∨
        ∃ reg : Registers, ("mov " : String) = "mov " ++ reg.fmt ++ ", ") :=
  C4_truncated_abort [0xC6] "mov " (by decide)

/-- C5: the claim says every register operand, including the register-direct
case of the immediate-to-register/memory form, is named through the 4-bit key
(width bit high, selector low).  In that case the code builds the key from
the rm selector alone, dropping the width bit: on `C7 C0 05 00`
(mov ax, 5 through the C7 encoding) the program prints `mov al, word 5`,
while the width-composed key 1000 names "ax". -/
theorem C5_register_width_key_eval :
    decodeProgram [0xC7, 0xC0, 0x05, 0x00] = .ok "bits 16\n\nmov al, word 5\n" ∧
    (Registers.ofKey ((1 <<< 3) ||| 0)).fmt = "ax" := by
  exact ⟨by decide, rfl⟩

/-- C6: for every register/memory-to-register encoding that decodes to an
instruction, the operand list prints the reg-field register first
(destination position) exactly when the direction bit is 1 and second
(source position) when it is 0; and the bytes `89 D8` decode to
`mov ax, bx`. -/
theorem C6_direction_flag :
    (∀ (d w nb : Nat) (r0 : List Nat) (s : String) (r : List Nat), d < 2 → nb < 256 →
      decodeRegMem d w (nb :: r0) = .cont s r →
      ∃ other, s = "mov " ++
        (if d = 1 then (Registers.ofKey ((w <<< 3) ||| ((nb >>> 3) &&& 0b111))).fmt else other) ++
        ", " ++
        (if d = 1 then other else (Registers.ofKey ((w <<< 3) ||| ((nb >>> 3) &&& 0b111))).fmt)) ∧
    decodeProgram [0x89, 0xD8] = .ok "bits 16\n\nmov ax, bx\n" :=
  ⟨fun d w nb r0 s r hd hnb h => decodeRegMem_cont_shape hd hnb h, by decide⟩

/-- C6 witness: `89 D8` has d=0, so the reg-field register bx is printed in
the source position of `mov ax, bx`. -/
theorem C6_direction_flag_witness :
    ∃ other, "mov ax, bx" = "mov " ++
      (if 0 = 1 then (Registers.ofKey ((1 <<< 3) ||| ((0xD8 >>> 3) &&& 0b111))).fmt else other) ++
      ", " ++
      (if 0 = 1 then other else (Registers.ofKey ((1 <<< 3) ||| ((0xD8 >>> 3) &&& 0b111))).fmt) :=
  C6_direction_flag.1 0 1 0xD8 [] "mov ax, bx" [] (by decide) (by decide) (by decide)

/-- C7 counterexample: the claim says an unrecognised opcode contributes no
output line, yet processing the single unrecognised byte 0x00 adds one more
(blank) line than the empty input produces, because each loop iteration
prints its leading newline unconditionally. -/
theorem C7_blank_line_counterexample :
    decodeProgram [0x00] = .ok "bits 16\n\n\n" ∧
    decodeProgram [] = .ok "bits 16\n\n" ∧
    ("bits 16\n\n\n" : String) ≠ "bits 16\n\n" := by
  refine ⟨by decide, by decide, by decide⟩

/-- C7 (amended): for every opcode byte matching none of the seven MOV
patterns, the decoder consumes exactly that one byte, raises no error, prints
no instruction text, and the loop continues with the next byte; the only
output of the iteration is the unconditional leading newline, which adds a
blank line to the stream. -/
theorem C7_unrecognized_skip (b : Nat) (rest : List Nat) (hb : b < 256)
    (h1 : b >>> 2 ≠ 0b100010) (h2 : b >>> 1 ≠ 0b1100011) (h3 : b >>> 4 ≠ 0b1011)
    (h4 : b >>> 1 ≠ 0b1010000) (h5 : b >>> 1 ≠ 0b1010001)
    (h6 : b ≠ 0b10001110) (h7 : b ≠ 0b10001100) :
    step (b :: rest) = .cont "" rest ∧
    (decodeLoop (b :: rest)).output = "\n" ++ (decodeLoop rest).output := by
  have hstep := step_unrecognized rest hb h1 h2 h3 h4 h5 h6 h7
  refine ⟨hstep, ?_⟩
  rw [decodeLoop_cont hstep, consOut_output, String.append_empty]

/-- C7 witness: the unrecognised byte 0x00 is skipped in one step. -/
theorem C7_unrecognized_skip_witness :
    step [0] = .cont "" [] ∧ (decodeLoop [0]).output = "\n" ++ (decodeLoop []).output :=
  C7_unrecognized_skip 0 [] (by decide) (by decide) (by decide) (by decide) (by decide)
    (by decide) (by decide) (by decide)

/-- C8 counterexample: the claim says after the directive and a single blank
line the output is one instruction line per instruction with no other blank
lines; two placeholder instructions `8E 8C` instead produce a blank line
between (and after) the placeholder lines, because those lines carry their
own trailing newline in addition to each iteration's leading newline. -/
theorem C8_blank_lines_counterexample :
    decodeProgram [0x8E, 0x8C] =
      .ok "bits 16\n\nmov ;Register/memory to segment register\n\nmov ;Segment register to register/memory\n\n" ∧
    ("bits 16\n\nmov ;Register/memory to segment register\n\nmov ;Segment register to register/memory\n\n" : String) ≠
      "bits 16\n\nmov ;Register/memory to segment register\nmov ;Segment register to register/memory\n" := by
  exact ⟨by decide, by decide⟩

/-- C8 (amended): every run's output starts with the directive line followed
by a newline (the first iteration's unconditional leading newline, making one
blank line); an exhausted stream at an opcode boundary ends the loop normally
with only that newline printed; each decoded instruction contributes its
segment in cursor order after the iteration's leading newline; segments of
the three implemented forms are single "mov "-prefixed lines containing no
newline of their own, so a stream consisting solely of implemented
instructions produces no blank line beyond the one after the directive; the
four placeholder forms print lines with their own trailing newline (hence an
extra blank line before whatever follows). -/
theorem C8_output_structure :
    (∀ bytes : List Nat, ∃ t, (decodeProgram bytes).output = "bits 16\n\n" ++ t) ∧
    decodeLoop [] = .ok "\n" ∧
    (∀ (bytes : List Nat) (s : String) (rest : List Nat), step bytes = .cont s rest →
      (decodeLoop bytes).output = "\n" ++ s ++ (decodeLoop rest).output) ∧
    (∀ (b : Nat) (r : List Nat) (s : String) (rest : List Nat), b < 256 →
      (b >>> 2 = 0b100010 ∨ b >>> 1 = 0b1100011 ∨ b >>> 4 = 0b1011) →
      step (b :: r) = .cont s rest →
      (∃ u, s = "mov " ++ u) ∧ noNl s) ∧
    (∀ bytes : List Nat, ImplementedOnly bytes →
      ∃ t, (decodeProgram bytes).output = "bits 16\n\n" ++ t ∧
        List.Chain' (fun a b => ¬(a = '\n' ∧ b = '\n')) ('\n' :: t.data)) ∧
    (∀ (b : Nat) (rest : List Nat), b < 256 →
      (b >>> 1 = 0b1010000 → step (b :: rest) = .cont "mov ;Memory to accumulator\n" rest) ∧
      (b >>> 1 = 0b1010001 → step (b :: rest) = .cont "mov ;Accumulator to memory\n" rest)) ∧
    (∀ rest : List Nat,
      step (0b10001110 :: rest) = .cont "mov ;Register/memory to segment register\n" rest ∧
      step (0b10001100 :: rest) = .cont "mov ;Segment register to register/memory\n" rest) := by
  refine ⟨?_, rfl, ?_, ?_, ?_, ?_, ?_⟩
  · intro bytes
    obtain ⟨t, ht⟩ := decodeLoop_output_startsNl bytes
    refine ⟨t, ?_⟩
    rw [decodeProgram_output, ht, ← String.append_assoc]
    exact congrArg (· ++ t) (by decide)
  · intro bytes s rest h
    rw [decodeLoop_cont h, consOut_output]
  · intro b r s rest hb hpat h
    exact step_implemented_noNl hb hpat h
  · intro bytes h
    obtain ⟨t, ht, hch⟩ := implementedOnly_noBlank h
    refine ⟨t, ?_, hch⟩
    rw [decodeProgram_output, ht, ← String.append_assoc]
    exact congrArg (· ++ t) (by decide)
  · intro b rest hb
    exact ⟨step_placeholder_memAcc rest hb, step_placeholder_accMem rest hb⟩
  · intro rest
    exact ⟨step_placeholder_regMemSeg rest, step_placeholder_segRegMem rest⟩

/-- C8 witness: placeholder and implemented streams instantiate each
hypothesis-bearing clause concretely. -/
theorem C8_output_structure_witness :
    (∃ t, (decodeProgram [0xA0]).output = "bits 16\n\n" ++ t) ∧
    (decodeLoop [0xA2]).output = "\n" ++ "mov ;Accumulator to memory\n" ++ (decodeLoop []).output ∧
    ((∃ u, ("mov ax, bx" : String) = "mov " ++ u) ∧ noNl "mov ax, bx") ∧
    (∃ t, (decodeProgram [0x89, 0xD8]).output = "bits 16\n\n" ++ t ∧
      List.Chain' (fun a b => ¬(a = '\n' ∧ b = '\n')) ('\n' :: t.data)) ∧
    step [0xA0] = .cont "mov ;Memory to accumulator\n" [] :=
  ⟨C8_output_structure.1 [0xA0],
    C8_output_structure.2.2.1 [0xA2] "mov ;Accumulator to memory\n" [] (by decide),
    C8_output_structure.2.2.2.1 0x89 [0xD8] "mov ax, bx" [] (by decide) (Or.inl (by decide))
      (by decide),
    C8_output_structure.2.2.2.2.1 [0x89, 0xD8]
      (ImplementedOnly.cons (by decide) (Or.inl (by decide))
        (show step (0x89 :: [0xD8]) = .cont "mov ax, bx" [] by decide) ImplementedOnly.nil),
    (C8_output_structure.2.2.2.2.2.1 0xA0 [] (by decide)).1 (by decide)⟩

/-- C9 counterexample: the claim says no width keyword is emitted when the
other operand is a register; yet `C6 C3 05` (register-direct destination)
prints `mov bl, byte 5` with the "byte" keyword. -/
theorem C9_width_keyword_counterexample :
    decodeProgram [0xC6, 0xC3, 0x05] = .ok "bits 16\n\nmov bl, byte 5\n" := by
  decide

/-- C9 (amended): in the immediate-to-register/memory form the data operand
is always printed behind the explicit width keyword "byte "/"word " chosen by
the width bit, for register-direct destinations just as for memory
destinations. -/
theorem C9_width_keyword_always (w : Nat) (bytes : List Nat) (s : String) (r : List Nat)
    (h : decodeImmRegMem w bytes = .cont s r) :
    ∃ (dst : String) (v : Int),
      s = "mov " ++ dst ++ ", " ++ (if w = 0 then "byte " else "word ") ++ toString v :=
  decodeImmRegMem_cont_shape h

/-- C9 witness: the register-direct instance `C6 C3 05`. -/
theorem C9_width_keyword_always_witness :
    ∃ (dst : String) (v : Int),
      "mov bl, byte 5" =
        "mov " ++ dst ++ ", " ++ (if (0 : Nat) = 0 then "byte " else "word ") ++ toString v :=
  C9_width_keyword_always 0 [0xC3, 0x05] "mov bl, byte 5" [] (by decide)

/-- C10 counterexample: the claim says the resolver returns an operand string
for every signed 16-bit displacement including -32768; at -32768 the
`i16::abs` call overflows (a panic under debug assertions), so no string is
produced. -/
theorem C10_abs_overflow_counterexample :
    get_displacement .MemoryDisplacement8bit 0 (-32768) = none ∧
    i16Abs (-32768) = none := by
  exact ⟨rfl, rfl⟩

/-- C10 (amended): the addressing resolver returns an operand string for
every displacement mode, every 3-bit r/m selector and every signed 16-bit
displacement except -32768 (where the absolute-value computation overflows),
and whenever it renders a sign suffix for a negative displacement the number
shown is the absolute value. -/
theorem C10_resolver_total_except_min (mode : ModField) (rm : Nat) (v : Int)
    (hmode : mode = .MemoryDisplacement8bit ∨ mode = .MemoryDisplacement16bit)
    (hrm : rm < 8) (hlo : -32768 ≤ v) (hhi : v < 32768) (hmin : v ≠ -32768) :
    ∃ s, get_displacement mode rm v = some s ∧
      (v < 0 → rm ≠ 6 → ∃ a, s = a ++ ("- " ++ toString (-v)) ++ "]") :=
  get_displacement_total v hmode hrm hmin

/-- C10 witness: displacement -5 with selector 0 renders its "- 5" suffix. -/
theorem C10_resolver_total_except_min_witness :
    ∃ s, get_displacement .MemoryDisplacement8bit 0 (-5) = some s ∧
      ((-5 : Int) < 0 → (0 : Nat) ≠ 6 → ∃ a, s = a ++ ("- " ++ toString (-(-5 : Int))) ++ "]") :=
  C10_resolver_total_except_min .MemoryDisplacement8bit 0 (-5) (Or.inl rfl) (by decide)
    (by decide) (by decide) (by decide)

end Decode8086
